import Mathlib

set_option maxRecDepth 100000

/-!
Verification of the macOS lsusb-style report converter (macos_lsusb.py).

The Python program parses the indentation-structured output of the platform
USB enumeration utility into a tree (USB -> USBBus -> USBDevice) and formats
every device as one line.  This file gives a shallow embedding of the data
model, the formatter (USBDevice.__str__, USBBus.__str__, USB.__str__) and the
recursive-descent parser (parse_dev, parse_bus, parse), together with
theorems settling the specification claims.

Python strings are modeled as Lean String values; the mutable line queue is
modeled by passing the remaining list of lines in and out of each parsing
function; fatal Python exceptions (failed int conversions, failed 2-tuple
unpacking, the failed assert) are modeled by Option, with none for a raised
exception.  The while loops of parse_bus and parse carry an explicit
iteration bound (fuel); every iteration consumes at least one queue line, so
the initial queue length is always a sufficient bound (this is proved below,
see the claim about termination).
-/

/-- Characters stripped by Python str.strip() on the ASCII inputs this
program handles: the Lean whitespace characters plus vertical tab and
form feed. -/
def pyWS (c : Char) : Bool := c.isWhitespace || c = '\x0b' || c = '\x0c'

/-- Models Python s.strip() on a list of characters: drop leading and
trailing whitespace. -/
def pyStripList (l : List Char) : List Char :=
  ((l.dropWhile pyWS).reverse.dropWhile pyWS).reverse

/-- Models Python s.strip(). -/
def pyStrip (s : String) : String := String.mk (pyStripList s.data)

/-- Models Python s.strip(cs) for a set of characters cs: drop leading and
trailing characters belonging to cs. -/
def stripChars (cs : List Char) (s : String) : String :=
  String.mk (((s.data.dropWhile (cs.contains ·)).reverse.dropWhile (cs.contains ·)).reverse)

/-- Boolean test that suf is a suffix of l. -/
def listEndsWith (l suf : List Char) : Bool :=
  decide (suf.length ≤ l.length) && l.drop (l.length - suf.length) == suf

/-- Models Python s.endswith(suf). -/
def strEndsWith (s suf : String) : Bool := listEndsWith s.data suf.data

/-- Models Python s[:-1]: the string without its last character. -/
def pyDropLast (s : String) : String := String.mk s.data.dropLast

/-- Models Python s[n:]: the string without its first n characters. -/
def pyDrop (n : Nat) (s : String) : String := String.mk (s.data.drop n)

/-- Split a character list at the first occurrence of c; none when c does
not occur. -/
def splitFirstList (c : Char) : List Char → Option (List Char × List Char)
  | [] => none
  | x :: xs =>
    if x = c then some ([], xs)
    else (splitFirstList c xs).map (fun p => (x :: p.1, p.2))

/-- Models Python s.split(c, 1) when it yields two parts: the text before
and after the first occurrence of c; none when c does not occur (so that a
two-variable unpacking of the result would raise). -/
def splitFirst? (c : Char) (s : String) : Option (String × String) :=
  (splitFirstList c s.data).map (fun p => (String.mk p.1, String.mk p.2))

/-- Models Python s.split(c, 1)[0]: the whole string when c is absent. -/
def beforeFirst (c : Char) (s : String) : String :=
  match splitFirst? c s with
  | some p => p.1
  | none => s

/-- Models Python s.split(c, 1)[-1]: the whole string when c is absent,
otherwise the part after the first occurrence of c. -/
def afterFirstD (c : Char) (s : String) : String :=
  match splitFirst? c s with
  | some p => p.2
  | none => s

/-- Value of a single digit character in the given base, none when the
character is no digit of that base. -/
def digitVal? (base : Nat) (c : Char) : Option Nat :=
  let v : Option Nat :=
    if '0' ≤ c ∧ c ≤ '9' then some (c.toNat - '0'.toNat)
    else if 'a' ≤ c ∧ c ≤ 'z' then some (c.toNat - 'a'.toNat + 10)
    else if 'A' ≤ c ∧ c ≤ 'Z' then some (c.toNat - 'A'.toNat + 10)
    else none
  match v with
  | some d => if d < base then some d else none
  | none => none

/-- Accumulating evaluation of a digit string, none at the first non-digit. -/
def digitsVal? (base : Nat) (acc : Nat) : List Char → Option Nat
  | [] => some acc
  | c :: cs =>
    match digitVal? base c with
    | some d => digitsVal? base (acc * base + d) cs
    | none => none

/-- Models Python int(s, base) for the nonnegative literals this program
produces: surrounding whitespace is stripped, an optional plus sign and (for
base 16) an optional 0x / 0X prefix are accepted, then at least one digit of
the base must follow.  none models the ValueError Python raises. -/
def pyInt? (base : Nat) (s : String) : Option Nat :=
  let l := pyStripList s.data
  let l := match l with
    | '+' :: rest => rest
    | _ => l
  let l := if base = 16 then
      match l with
      | '0' :: 'x' :: rest => rest
      | '0' :: 'X' :: rest => rest
      | _ => l
    else l
  if l.isEmpty then none else digitsVal? base 0 l

/-- Left-pad a character list to the given width. -/
def leftPad (w : Nat) (c : Char) (l : List Char) : List Char :=
  List.replicate (w - l.length) c ++ l

/-- Models Python '{:03d}'.format(n). -/
def fmt03d (n : Nat) : String := String.mk (leftPad 3 '0' (Nat.toDigits 10 n))

/-- Models Python '{:03x}'.format(n) (Nat.toDigits uses the lowercase
hexadecimal digit characters). -/
def fmt03x (n : Nat) : String := String.mk (leftPad 3 '0' (Nat.toDigits 16 n))

/-- Attribute mapping of a node: insertion-ordered key/value pairs with the
Python dict update semantics. -/
abbrev Attrs := List (String × String)

/-- Models d.get(k) on the attribute dict. -/
def getAttr? (a : Attrs) (k : String) : Option String :=
  match a with
  | [] => none
  | (k', v) :: rest => if k' = k then some v else getAttr? rest k

/-- Models d.get(k, dflt) on the attribute dict. -/
def getAttrD (a : Attrs) (k d : String) : String := (getAttr? a k).getD d

/-- Models d[k] = v on the attribute dict: overwrite the existing entry in
place, else append. -/
def setAttr (a : Attrs) (k v : String) : Attrs :=
  match a with
  | [] => [(k, v)]
  | (k', v') :: rest => if k' = k then (k, v) :: rest else (k', v') :: setAttr rest k v

/-- A USBDevice node: its heading name and its attribute dict.  The Python
object also holds a back reference self.bus to the owning bus; here the
owning bus's attributes are passed to the formatter explicitly. -/
structure USBDevice where
  name : String
  attr : Attrs
deriving DecidableEq, Repr

/-- A USBBus node: heading name, attribute dict and child device list. -/
structure USBBus where
  name : String
  attr : Attrs
  list : List USBDevice
deriving DecidableEq, Repr

/-- The USB root node (its name is None in Python and never used). -/
structure USB where
  attr : Attrs
  list : List USBBus
deriving DecidableEq, Repr

/-- Models USBDevice.set / NamedAttributedObjectWithList.set. -/
def USBDevice.set (d : USBDevice) (k v : String) : USBDevice :=
  { d with attr := setAttr d.attr k v }

/-- Models USBBus.set (inherited). -/
def USBBus.set (b : USBBus) (k v : String) : USBBus :=
  { b with attr := setAttr b.attr k v }

/-- Models USB.set (inherited). -/
def USB.set (u : USB) (k v : String) : USB :=
  { u with attr := setAttr u.attr k v }

/-- Models USBBus.add: on the very first call (empty child list) a synthetic
root-hub USBDevice named after the bus and carrying a copy of the bus's
current attributes is appended first; then the entry, when it is not the
None placeholder, is appended. -/
def USBBus.add (b : USBBus) (entry : Option USBDevice) : USBBus :=
  let base := if b.list.isEmpty then b.list ++ [USBDevice.mk b.name b.attr] else b.list
  { b with list := base ++ entry.toList }

/-- Models USB.add (the inherited plain append). -/
def USB.add (u : USB) (b : USBBus) : USB := { u with list := u.list ++ [b] }

/-- The fixed default vendor name of the source. -/
def DEFAULT_VENDOR : String := "Apple Inc."

/-- Models the fixed controller-driver lookup table of USBDevice.__str__
(dict(OHCI='8005', ...).get(prdId, prdId)). -/
def ctrlMap (s : String) : String :=
  if s = "OHCI" then "8005"
  else if s = "EHCI" then "8006"
  else if s = "XHCI" then "8007"
  else if s = "AppleUSBXHCISPTLP" then "8007"
  else if s = "AppleUSBXHCIAR" then "8007"
  else s

/-- Models the busId computation of the explicit-device branch of
USBDevice.__str__: the text before the first slash of the Location ID
attribute (defaulting to the bus's Bus Number plus a placeholder path
segment), parsed as hexadecimal, shifted right 24 bits, zero-padded to
three decimal digits. -/
def busNumExplicit (busAttr : Attrs) (d : USBDevice) : Option String :=
  (pyInt? 16 (beforeFirst '/'
      (getAttrD d.attr "Location ID" (getAttrD busAttr "Bus Number" "0" ++ "/x")))).map
    (fun n => fmt03d (n >>> 24))

/-- Models the devId computation of the explicit-device branch of
USBDevice.__str__: when a Location ID attribute exists and contains a slash,
the text after the first slash is stripped, parsed by Python int() in base
10, and rendered as three lowercase hexadecimal digits; otherwise the
literal "000". -/
def devSlotOf (d : USBDevice) : Option String :=
  match getAttr? d.attr "Location ID" with
  | some loc =>
    if loc.data.contains '/' then
      (pyInt? 10 (pyStrip (afterFirstD '/' loc))).map fmt03x
    else some "000"
  | none => some "000"

/-- Models the vndId computation of the explicit-device branch: text of the
Vendor ID attribute (default "0x1d6b (xx)") before the first space, first
two characters dropped. -/
def vndIdExplicit (d : USBDevice) : String :=
  pyDrop 2 (beforeFirst ' ' (getAttrD d.attr "Vendor ID" "0x1d6b (xx)"))

/-- Models the prdId computation of the explicit-device branch: the Product
ID attribute (default "0x????") with its first two characters dropped. -/
def prdIdExplicit (d : USBDevice) : String :=
  pyDrop 2 (getAttrD d.attr "Product ID" "0x????")

/-- Models the mfrNm computation of the explicit-device branch: the
Manufacturer attribute when present, else the Vendor ID attribute's text
after the first space, stripped (the Vendor ID default names the fixed
default vendor in parentheses). -/
def mfrExplicit (d : USBDevice) : String :=
  getAttrD d.attr "Manufacturer"
    (pyStrip (afterFirstD ' ' (getAttrD d.attr "Vendor ID" ("xxx (" ++ DEFAULT_VENDOR ++ ")"))))

/-- Models the serNr computation shared by both branches: ", Serial: v" for
a nonempty Serial Number attribute, else the empty string. -/
def serExplicit (d : USBDevice) : String :=
  let s := getAttrD d.attr "Serial Number" ""
  if s ≠ "" then ", Serial: " ++ s else ""

/-- Models the busId computation of the root-hub branch: the bus's Bus
Number attribute (default "3e7") parsed as hexadecimal and zero-padded to
three decimal digits. -/
def busNumHub (busAttr : Attrs) : Option String :=
  (pyInt? 16 (getAttrD busAttr "Bus Number" "3e7")).map fmt03d

/-- Models the prdId computation of the root-hub branch: the Host Controller
Driver attribute (else Product ID, default "0x????"), stripped, then sent
through the fixed controller table. -/
def prdIdHub (d : USBDevice) : String :=
  ctrlMap (pyStrip (getAttrD d.attr "Host Controller Driver" (getAttrD d.attr "Product ID" "0x????")))

/-- Models the serNr overwrite of the root-hub branch: ", " plus the Host
Controller Driver attribute (default "???"). -/
def serHub (d : USBDevice) : String :=
  ", " ++ getAttrD d.attr "Host Controller Driver" "???"

/-- Models the final manufacturer display transformation
mfrNm.strip().strip('()').strip(). -/
def mfrDisplay (m : String) : String := pyStrip (stripChars ['(', ')'] (pyStrip m))

/-- Models USBDevice.__str__.  busAttr is the attribute dict of the owning
bus (self.bus.attr).  A device with a Product ID attribute is an explicit
device; otherwise the root-hub branch applies.  The locId locals of the
source are computed but never used and are omitted here (in the root-hub
branch that computation re-parses the just-produced decimal busId digits, so
it cannot raise).  none models a Python exception from a failed int
conversion. -/
def USBDevice.str (busAttr : Attrs) (d : USBDevice) : Option String :=
  if (getAttr? d.attr "Product ID").isSome then
    match busNumExplicit busAttr d, devSlotOf d with
    | some busId, some devId =>
      some ("Bus " ++ busId ++ " Device " ++ devId ++ ": ID "
        ++ vndIdExplicit d ++ ":" ++ prdIdExplicit d ++ " "
        ++ mfrDisplay (mfrExplicit d) ++ " " ++ d.name ++ serExplicit d)
    | _, _ => none
  else
    match busNumHub busAttr with
    | some busId =>
      some ("Bus " ++ busId ++ " Device 001: ID 05ac:" ++ prdIdHub d ++ " "
        ++ mfrDisplay ("(" ++ DEFAULT_VENDOR ++ ")") ++ " " ++ d.name ++ serHub d)
    | none => none

/-- Option-valued map over a list, none as soon as one element maps to
none (the order in which Python would raise). -/
def mapOpt (f : α → Option β) : List α → Option (List β)
  | [] => some []
  | x :: xs =>
    match f x, mapOpt f xs with
    | some y, some ys => some (y :: ys)
    | _, _ => none

/-- Models Python sep.join(parts). -/
def strJoin (sep : String) : List String → String
  | [] => ""
  | [x] => x
  | x :: y :: rest => x ++ sep ++ strJoin sep (y :: rest)

/-- Models USBBus.__str__: the newline join of the device lines. -/
def USBBus.str (b : USBBus) : Option String :=
  (mapOpt (USBDevice.str b.attr) b.list).map (strJoin "\n")

/-- Models USB.__str__: the newline join of the bus renderings. -/
def USB.str (u : USB) : Option String :=
  (mapOpt USBBus.str u.list).map (strJoin "\n")

/-- Number of newline characters in a string; a nonempty newline-free-lines
rendering with n lines has nlCount n - 1. -/
def nlCount (s : String) : Nat := s.data.count '\n'

/-- Models the while loop of parse_dev, carrying the device built so far.
Each popped line is stripped; a line ending in a colon closes the device
section (the stripped line is pushed back and the device is added to the
bus, triggering root-hub synthesis on the bus's first add); any other line
must split into a key and a value at its first colon (none models the
raised unpacking error) and becomes a device attribute; an exhausted queue
also closes the section. -/
def parseDevLoop (bus : USBBus) : USBDevice → List String → Option (USBBus × List String)
  | dev, [] => some (bus.add (some dev), [])
  | dev, l :: rest =>
    if strEndsWith (pyStrip l) ":" then some (bus.add (some dev), pyStrip l :: rest)
    else
      match splitFirst? ':' (pyStrip l) with
      | some (n, v) => parseDevLoop bus (dev.set (pyStrip n) (pyStrip v)) rest
      | none => none

/-- Models parse_dev(bus, name, text): run the device loop from a fresh
device with the given heading name. -/
def parse_dev (bus : USBBus) (name : String) (text : List String) :
    Option (USBBus × List String) :=
  parseDevLoop bus (USBDevice.mk name []) text

/-- Models the while loop of parse_bus, carrying the bus built so far and an
iteration bound.  A stripped line ending in "Bus:" closes the bus section
(pushed back, bus finalized with the None placeholder and appended to the
system); any other line ending in ":" opens a device section parsed by
parse_dev from the line without its trailing colon; any other line becomes a
bus attribute; an exhausted queue finalizes the bus.  Every iteration
consumes at least one line of the queue, so any fuel of at least the queue
length makes the bound irrelevant (fuel exhaustion, none, is unreachable
then). -/
def parseBusLoopF : Nat → USB → USBBus → List String → Option (USB × List String)
  | _, usb, bus, [] => some (usb.add (bus.add none), [])
  | 0, _, _, _ :: _ => none
  | fuel + 1, usb, bus, l :: rest =>
    if strEndsWith (pyStrip l) "Bus:" then some (usb.add (bus.add none), pyStrip l :: rest)
    else if strEndsWith (pyStrip l) ":" then
      match parse_dev bus (pyDropLast (pyStrip l)) rest with
      | some (bus', rest') => parseBusLoopF fuel usb bus' rest'
      | none => none
    else
      match splitFirst? ':' (pyStrip l) with
      | some (n, v) => parseBusLoopF fuel usb (bus.set (pyStrip n) (pyStrip v)) rest
      | none => none

/-- Models parse_bus(sys, name, text): run the bus loop from a fresh bus
with the given heading name.  The queue length bounds the iteration count. -/
def parse_bus (usb : USB) (name : String) (text : List String) :
    Option (USB × List String) :=
  parseBusLoopF text.length usb (USBBus.mk name [] []) text

/-- Models the while loop of parse: a stripped line ending in "Bus:" opens a
bus section parsed by parse_bus from the line without its trailing colon;
any other line becomes a top-level attribute of the USB root. -/
def parseLoopF : Nat → USB → List String → Option (USB × List String)
  | _, usb, [] => some (usb, [])
  | 0, _, _ :: _ => none
  | fuel + 1, usb, l :: rest =>
    if strEndsWith (pyStrip l) "Bus:" then
      match parse_bus usb (pyDropLast (pyStrip l)) rest with
      | some (usb', rest') => parseLoopF fuel usb' rest'
      | none => none
    else
      match splitFirst? ':' (pyStrip l) with
      | some (n, v) => parseLoopF fuel (USB.set usb (pyStrip n) (pyStrip v)) rest
      | none => none

/-- Models parse(text): the assert demands a nonempty queue whose first
line is exactly "USB:" (none models the AssertionError); that anchor line
is popped and the main loop runs on the remainder.  The returned pair holds
the USB tree and the final (always empty on success) state of the queue. -/
def parse (text : List String) : Option (USB × List String) :=
  match text with
  | [] => none
  | l :: rest => if l = "USB:" then parseLoopF rest.length (USB.mk [] []) rest else none


/-- The sample report embedded in the module's documentation comment, from
its "USB:" anchor line on, with blank lines removed (as fetch() would
deliver it): three Bus sections, the first with two explicit device
sections, the other two with none. -/
def sampleReport : List String := [
  "USB:",
  "    USB 3.0 Bus:",
  "      Host Controller Driver: AppleUSBXHCISPTLP",
  "      PCI Device ID: 0x9d2f",
  "      PCI Revision ID: 0x0021",
  "      PCI Vendor ID: 0x8086",
  "        Apple USB Ethernet Adapter:",
  "          Product ID: 0x1402",
  "          Vendor ID: 0x05ac (Apple Inc.)",
  "          Version: 0.01",
  "          Serial Number: 267DCA",
  "          Speed: Up to 480 Mb/sec",
  "          Manufacturer: Apple Inc.",
  "          Location ID: 0x14500000 / 4",
  "          Current Available (mA): 500",
  "          Current Required (mA): 250",
  "          Extra Operating Current (mA): 0",
  "        iBridge:",
  "          Product ID: 0x8600",
  "          Vendor ID: 0x05ac (Apple Inc.)",
  "          Version: 1.01",
  "          Manufacturer: Apple Inc.",
  "          Location ID: 0x14100000",
  "    USB 3.1 Bus:",
  "      Host Controller Driver: AppleUSBXHCIAR",
  "      PCI Device ID: 0x15d4",
  "      PCI Revision ID: 0x0002",
  "      PCI Vendor ID: 0x8086",
  "      Bus Number: 0x01",
  "    USB 3.1 Bus:",
  "      Host Controller Driver: AppleUSBXHCIAR",
  "      PCI Device ID: 0x15d4",
  "      PCI Revision ID: 0x0002",
  "      PCI Vendor ID: 0x8086",
  "      Bus Number: 0x00"]

/-- The claim's reading of the dev_slot rule, following the specification
words "parse as hexadecimal, format as 3-digit zero-padded hex": identical
to devSlotOf except that the text after the slash is parsed in base 16.
Declared only to compare the specified behaviour with the implemented one. -/
def devSlotClaim (d : USBDevice) : Option String :=
  match getAttr? d.attr "Location ID" with
  | some loc =>
    if loc.data.contains '/' then
      (pyInt? 16 (pyStrip (afterFirstD '/' loc))).map fmt03x
    else some "000"
  | none => some "000"

/-- Number of explicit devices (children holding a Product ID attribute)
across all buses of a tree. -/
def explicitDeviceCount (u : USB) : Nat :=
  (u.list.map
    (fun b => (b.list.filter (fun d => (getAttr? d.attr "Product ID").isSome)).length)).sum

/-- Number of buses of a tree with zero explicit devices. -/
def emptyBusCount (u : USB) : Nat :=
  (u.list.filter
    (fun b => (b.list.filter (fun d => (getAttr? d.attr "Product ID").isSome)).isEmpty)).length

/-- Total number of device children (explicit or synthetic) across all
buses of a tree; the formatter emits one line per device child. -/
def totalDeviceCount (u : USB) : Nat :=
  (u.list.map (fun b => b.list.length)).sum

/-- A minimal report whose single bus receives an explicit device on its
very first add call: one bus section whose first child line is a device
section holding a Product ID. -/
def c1input : List String := ["USB:", "B Bus:", "D:", "Product ID: 0x1402"]

theorem str_data_append (a b : String) : (a ++ b).data = a.data ++ b.data := by
  rcases a with ⟨la⟩; rcases b with ⟨lb⟩; rfl

theorem nlCount_append (a b : String) : nlCount (a ++ b) = nlCount a + nlCount b := by
  simp [nlCount, str_data_append, List.count_append]

theorem mem_dropWhile_of_not {α : Type} {p : α → Bool} {c : α} (hc : p c = false) :
    ∀ {l : List α}, c ∈ l → c ∈ l.dropWhile p := by
  intro l
  induction l with
  | nil => intro h; cases h
  | cons x xs ih =>
    intro h
    by_cases hx : p x = true
    · rw [List.dropWhile_cons_of_pos hx]
      rcases List.mem_cons.mp h with h | h
      · subst h; rw [hc] at hx; cases hx
      · exact ih h
    · rw [List.dropWhile_cons_of_neg hx]
      exact h

theorem mem_pyStripList {c : Char} (hc : pyWS c = false) {l : List Char}
    (h : c ∈ l) : c ∈ pyStripList l := by
  unfold pyStripList
  rw [List.mem_reverse]
  exact mem_dropWhile_of_not hc (by rw [List.mem_reverse]; exact mem_dropWhile_of_not hc h)

theorem mem_colon_pyStrip {s : String} (h : ':' ∈ s.data) : ':' ∈ (pyStrip s).data :=
  mem_pyStripList (by decide) h

theorem dropWhile_append_singleton {p : Char → Bool} {c : Char} (hc : p c = false) :
    ∀ (t : List Char), List.dropWhile p (t ++ [c]) = List.dropWhile p t ++ [c] := by
  intro t
  induction t with
  | nil => simp [List.dropWhile, hc]
  | cons x xs ih =>
    by_cases hx : p x = true
    · simp only [List.cons_append, List.dropWhile_cons_of_pos hx, ih]
    · push_neg at hx
      simp only [List.cons_append, List.dropWhile_cons_of_neg hx]

theorem pyStripList_append_end {t : List Char} {c : Char} (hc : pyWS c = false) :
    pyStripList (t ++ [c]) = List.dropWhile pyWS t ++ [c] := by
  have hc' : ¬ pyWS c = true := by rw [hc]; exact Bool.false_ne_true
  unfold pyStripList
  rw [dropWhile_append_singleton hc, List.reverse_append]
  have h1 : ([c] : List Char).reverse ++ (List.dropWhile pyWS t).reverse
      = c :: (List.dropWhile pyWS t).reverse := by simp
  rw [h1, List.dropWhile_cons_of_neg hc']
  simp

theorem listEndsWith_iff {l suf : List Char} :
    listEndsWith l suf = true ↔ ∃ t, l = t ++ suf := by
  unfold listEndsWith
  rw [Bool.and_eq_true, decide_eq_true_eq, beq_iff_eq]
  constructor
  · rintro ⟨hle, hdrop⟩
    refine ⟨l.take (l.length - suf.length), ?_⟩
    conv_lhs => rw [← List.take_append_drop (l.length - suf.length) l]
    rw [hdrop]
  · rintro ⟨t, rfl⟩
    constructor
    · simp
    · have h1 : (t ++ suf).length - suf.length = t.length := by simp
      rw [h1, List.drop_left]

theorem strEndsWith_iff {s suf : String} :
    strEndsWith s suf = true ↔ ∃ t, s.data = t ++ suf.data := by
  unfold strEndsWith
  exact listEndsWith_iff

theorem strEndsWith_colon_of_Bus {s : String} (h : strEndsWith s "Bus:" = true) :
    strEndsWith s ":" = true := by
  rw [strEndsWith_iff] at h ⊢
  obtain ⟨t, ht⟩ := h
  exact ⟨t ++ ['B', 'u', 's'], by simpa using ht⟩

theorem strEndsWith_colon_pyStrip {s : String} (h : strEndsWith s ":" = true) :
    strEndsWith (pyStrip s) ":" = true := by
  rw [strEndsWith_iff] at h ⊢
  obtain ⟨t, ht⟩ := h
  refine ⟨List.dropWhile pyWS t, ?_⟩
  show pyStripList s.data = _
  rw [ht]
  exact pyStripList_append_end (by decide)

theorem splitFirstList_isSome {c : Char} :
    ∀ {l : List Char}, c ∈ l → ∃ p, splitFirstList c l = some p := by
  intro l
  induction l with
  | nil => intro h; cases h
  | cons x xs ih =>
    intro h
    by_cases hx : x = c
    · exact ⟨([], xs), by simp [splitFirstList, hx]⟩
    · rcases List.mem_cons.mp h with h | h
      · exact absurd h.symm hx
      · obtain ⟨p, hp⟩ := ih h
        exact ⟨(x :: p.1, p.2), by simp [splitFirstList, hx, hp]⟩

theorem splitFirst?_isSome {s : String} (h : ':' ∈ s.data) :
    ∃ nv, splitFirst? ':' s = some nv := by
  obtain ⟨p, hp⟩ := splitFirstList_isSome h
  exact ⟨(String.mk p.1, String.mk p.2), by simp [splitFirst?, hp]⟩

/-- The root-hub head invariant of a bus: its first child is the synthetic
device named after the bus and carrying the bus's attributes. -/
def headP (b : USBBus) : Prop :=
  b.list.head? = some (USBDevice.mk b.name b.attr)

theorem USBBus.add_list_of_empty {b : USBBus} (h : b.list = []) (e : Option USBDevice) :
    (b.add e).list = USBDevice.mk b.name b.attr :: e.toList := by
  simp [USBBus.add, h]

theorem USBBus.add_list_of_ne {b : USBBus} (h : b.list ≠ []) (e : Option USBDevice) :
    (b.add e).list = b.list ++ e.toList := by
  simp [USBBus.add, h]

theorem headP_add {b : USBBus} (e : Option USBDevice) (h : b.list = [] ∨ headP b) :
    headP (b.add e) ∧ (b.add e).list ≠ [] ∧ (b.add e).name = b.name ∧ (b.add e).attr = b.attr := by
  have hname : (b.add e).name = b.name := rfl
  have hattr : (b.add e).attr = b.attr := rfl
  rcases h with h | h
  · rw [headP, hname, hattr, USBBus.add_list_of_empty h e]
    exact ⟨rfl, by simp, rfl, rfl⟩
  · have hne : b.list ≠ [] := by
      intro hnil
      rw [headP, hnil] at h
      cases h
    rw [headP, hname, hattr, USBBus.add_list_of_ne hne e]
    rcases hd : b.list with _ | ⟨d, ds⟩
    · exact absurd hd hne
    · rw [headP, hd] at h
      simp only [List.head?] at h
      refine ⟨?_, by simp, rfl, rfl⟩
      simp [h]

theorem parseDevLoop_shape (bus : USBBus) :
    ∀ (text : List String) (dev : USBDevice) (bus' : USBBus) (rest' : List String),
      parseDevLoop bus dev text = some (bus', rest') →
      ∃ dev', bus' = bus.add (some dev') ∧ dev'.name = dev.name := by
  intro text
  induction text with
  | nil =>
    intro dev bus' rest' h
    simp only [parseDevLoop, Option.some.injEq, Prod.mk.injEq] at h
    exact ⟨dev, h.1.symm, rfl⟩
  | cons l rest ih =>
    intro dev bus' rest' h
    by_cases hc : strEndsWith (pyStrip l) ":" = true
    · rw [parseDevLoop, if_pos hc] at h
      simp only [Option.some.injEq, Prod.mk.injEq] at h
      exact ⟨dev, h.1.symm, rfl⟩
    · rw [parseDevLoop, if_neg hc] at h
      rcases hs : splitFirst? ':' (pyStrip l) with _ | ⟨n, v⟩
      · rw [hs] at h; cases h
      · rw [hs] at h
        obtain ⟨dev', hd1, hd2⟩ := ih (dev.set (pyStrip n) (pyStrip v)) bus' rest' h
        exact ⟨dev', hd1, hd2⟩

theorem parseDevLoop_rest_le (bus : USBBus) :
    ∀ (text : List String) (dev : USBDevice) (bus' : USBBus) (rest' : List String),
      parseDevLoop bus dev text = some (bus', rest') →
      rest'.length ≤ text.length := by
  intro text
  induction text with
  | nil =>
    intro dev bus' rest' h
    simp only [parseDevLoop, Option.some.injEq, Prod.mk.injEq] at h
    obtain ⟨h1, h2⟩ := h
    subst h2
    exact Nat.le_refl _
  | cons l rest ih =>
    intro dev bus' rest' h
    by_cases hc : strEndsWith (pyStrip l) ":" = true
    · rw [parseDevLoop, if_pos hc] at h
      simp only [Option.some.injEq, Prod.mk.injEq] at h
      obtain ⟨h1, h2⟩ := h
      subst h2
      simp
    · rw [parseDevLoop, if_neg hc] at h
      rcases hs : splitFirst? ':' (pyStrip l) with _ | ⟨n, v⟩
      · rw [hs] at h; cases h
      · rw [hs] at h
        exact Nat.le_succ_of_le (ih _ bus' rest' h)

theorem parseDevLoop_boundary (bus : USBBus) :
    ∀ (text : List String) (dev : USBDevice) (bus' : USBBus) (rest' : List String),
      parseDevLoop bus dev text = some (bus', rest') →
      rest' = [] ∨ ∃ l r, rest' = l :: r ∧ strEndsWith (pyStrip l) ":" = true := by
  intro text
  induction text with
  | nil =>
    intro dev bus' rest' h
    simp only [parseDevLoop, Option.some.injEq, Prod.mk.injEq] at h
    exact Or.inl h.2.symm
  | cons l rest ih =>
    intro dev bus' rest' h
    by_cases hc : strEndsWith (pyStrip l) ":" = true
    · rw [parseDevLoop, if_pos hc] at h
      simp only [Option.some.injEq, Prod.mk.injEq] at h
      refine Or.inr ⟨pyStrip l, rest, h.2.symm, ?_⟩
      exact strEndsWith_colon_pyStrip hc
    · rw [parseDevLoop, if_neg hc] at h
      rcases hs : splitFirst? ':' (pyStrip l) with _ | ⟨n, v⟩
      · rw [hs] at h; cases h
      · rw [hs] at h
        exact ih _ bus' rest' h

theorem parseDevLoop_some (bus : USBBus) :
    ∀ (text : List String) (dev : USBDevice),
      (∀ x ∈ text, ':' ∈ x.data) →
      ∃ bus' rest', parseDevLoop bus dev text = some (bus', rest') ∧
        ∀ x ∈ rest', ':' ∈ x.data := by
  intro text
  induction text with
  | nil =>
    intro dev _
    exact ⟨bus.add (some dev), [], rfl, by intro x hx; cases hx⟩
  | cons l rest ih =>
    intro dev hcol
    by_cases hc : strEndsWith (pyStrip l) ":" = true
    · refine ⟨bus.add (some dev), pyStrip l :: rest, ?_, ?_⟩
      · rw [parseDevLoop, if_pos hc]
      · intro x hx
        rcases List.mem_cons.mp hx with hx | hx
        · subst hx
          exact mem_colon_pyStrip (hcol l (List.mem_cons_self l rest))
        · exact hcol x (List.mem_cons_of_mem l hx)
    · have hmem : ':' ∈ (pyStrip l).data :=
        mem_colon_pyStrip (hcol l (List.mem_cons_self l rest))
      obtain ⟨⟨n, v⟩, hs⟩ := splitFirst?_isSome hmem
      obtain ⟨bus', rest', hrun, hinv⟩ :=
        ih (dev.set (pyStrip n) (pyStrip v)) (fun x hx => hcol x (List.mem_cons_of_mem l hx))
      refine ⟨bus', rest', ?_, hinv⟩
      rw [parseDevLoop, if_neg hc, hs]
      exact hrun

/-- A queue state as parse_bus can see it after a device section: either
exhausted, or its front is a pushed-back (already stripped) section-header
line ending in a colon. -/
def colonBoundary (t : List String) : Prop :=
  t = [] ∨ ∃ l r, t = l :: r ∧ strEndsWith (pyStrip l) ":" = true

theorem parseBusLoopF_rest_le :
    ∀ (fuel : Nat) (usb : USB) (bus : USBBus) (text : List String)
      (usb' : USB) (rest' : List String),
      parseBusLoopF fuel usb bus text = some (usb', rest') →
      rest'.length ≤ text.length := by
  intro fuel
  induction fuel with
  | zero =>
    intro usb bus text usb' rest' h
    cases text with
    | nil =>
      simp only [parseBusLoopF, Option.some.injEq, Prod.mk.injEq] at h
      obtain ⟨h1, h2⟩ := h
      subst h2
      exact Nat.le_refl _
    | cons l rest => simp [parseBusLoopF] at h
  | succ fuel ih =>
    intro usb bus text usb' rest' h
    cases text with
    | nil =>
      simp only [parseBusLoopF, Option.some.injEq, Prod.mk.injEq] at h
      obtain ⟨h1, h2⟩ := h
      subst h2
      exact Nat.le_refl _
    | cons l rest =>
      simp only [parseBusLoopF] at h
      by_cases hb : strEndsWith (pyStrip l) "Bus:" = true
      · rw [if_pos hb] at h
        simp only [Option.some.injEq, Prod.mk.injEq] at h
        obtain ⟨h1, h2⟩ := h
        subst h2
        simp
      · rw [if_neg hb] at h
        by_cases hc : strEndsWith (pyStrip l) ":" = true
        · rw [if_pos hc] at h
          rcases hd : parse_dev bus (pyDropLast (pyStrip l)) rest with _ | ⟨bus1, rest1⟩
          · rw [hd] at h; cases h
          · rw [hd] at h
            have h1 : rest1.length ≤ rest.length :=
              parseDevLoop_rest_le bus rest (USBDevice.mk (pyDropLast (pyStrip l)) []) bus1 rest1 hd
            exact Nat.le_succ_of_le (Nat.le_trans (ih usb bus1 rest1 usb' rest' h) h1)
        · rw [if_neg hc] at h
          rcases hs : splitFirst? ':' (pyStrip l) with _ | ⟨n, v⟩
          · rw [hs] at h; cases h
          · rw [hs] at h
            exact Nat.le_succ_of_le (ih usb _ rest usb' rest' h)

theorem parseBusLoopF_spec :
    ∀ (fuel : Nat) (usb : USB) (bus : USBBus) (text : List String)
      (usb' : USB) (rest' : List String),
      parseBusLoopF fuel usb bus text = some (usb', rest') →
      (bus.list = [] ∨ headP bus) →
      (bus.list = [] ∨ colonBoundary text) →
      (∃ b', usb' = usb.add b' ∧ headP b' ∧ b'.name = bus.name ∧ b'.list ≠ []) ∧
        colonBoundary rest' := by
  intro fuel
  induction fuel with
  | zero =>
    intro usb bus text usb' rest' h hP hQ
    cases text with
    | nil =>
      simp only [parseBusLoopF, Option.some.injEq, Prod.mk.injEq] at h
      obtain ⟨h1, h2⟩ := h
      subst h2
      obtain ⟨hp, hne, hnm, _⟩ := headP_add none hP
      exact ⟨⟨bus.add none, h1.symm, hp, hnm, hne⟩, Or.inl rfl⟩
    | cons l rest => simp [parseBusLoopF] at h
  | succ fuel ih =>
    intro usb bus text usb' rest' h hP hQ
    cases text with
    | nil =>
      simp only [parseBusLoopF, Option.some.injEq, Prod.mk.injEq] at h
      obtain ⟨h1, h2⟩ := h
      subst h2
      obtain ⟨hp, hne, hnm, _⟩ := headP_add none hP
      exact ⟨⟨bus.add none, h1.symm, hp, hnm, hne⟩, Or.inl rfl⟩
    | cons l rest =>
      simp only [parseBusLoopF] at h
      by_cases hb : strEndsWith (pyStrip l) "Bus:" = true
      · rw [if_pos hb] at h
        simp only [Option.some.injEq, Prod.mk.injEq] at h
        obtain ⟨h1, h2⟩ := h
        subst h2
        obtain ⟨hp, hne, hnm, _⟩ := headP_add none hP
        refine ⟨⟨bus.add none, h1.symm, hp, hnm, hne⟩, Or.inr ?_⟩
        exact ⟨pyStrip l, rest, rfl,
          strEndsWith_colon_pyStrip (strEndsWith_colon_of_Bus hb)⟩
      · rw [if_neg hb] at h
        by_cases hc : strEndsWith (pyStrip l) ":" = true
        · rw [if_pos hc] at h
          rcases hd : parse_dev bus (pyDropLast (pyStrip l)) rest with _ | ⟨bus1, rest1⟩
          · rw [hd] at h; cases h
          · rw [hd] at h
            obtain ⟨dev', hdev, _⟩ :=
              parseDevLoop_shape bus rest (USBDevice.mk (pyDropLast (pyStrip l)) []) bus1 rest1 hd
            obtain ⟨hp1, hne1, hnm1, _⟩ := headP_add (some dev') hP
            have hQ1 := parseDevLoop_boundary bus rest
              (USBDevice.mk (pyDropLast (pyStrip l)) []) bus1 rest1 hd
            subst hdev
            obtain ⟨⟨b', hb1, hb2, hb3, hb4⟩, hbd⟩ :=
              ih usb (bus.add (some dev')) rest1 usb' rest' h (Or.inr hp1) (Or.inr hQ1)
            exact ⟨⟨b', hb1, hb2, by rw [hb3, hnm1], hb4⟩, hbd⟩
        · rw [if_neg hc] at h
          rcases hs : splitFirst? ':' (pyStrip l) with _ | ⟨n, v⟩
          · rw [hs] at h; cases h
          · rw [hs] at h
            have hle : bus.list = [] := by
              rcases hQ with hQ | hQ
              · exact hQ
              · rcases hQ with hQ | ⟨l0, r0, he, hcol⟩
                · cases hQ
                · rw [List.cons.injEq] at he
                  rw [← he.1] at hcol
                  exact absurd hcol hc
            have hsetl : (bus.set (pyStrip n) (pyStrip v)).list = [] := hle
            obtain ⟨⟨b', hb1, hb2, hb3, hb4⟩, hbd⟩ :=
              ih usb (bus.set (pyStrip n) (pyStrip v)) rest usb' rest' h
                (Or.inl hsetl) (Or.inl hsetl)
            exact ⟨⟨b', hb1, hb2, hb3, hb4⟩, hbd⟩

theorem parseBusLoopF_some :
    ∀ (fuel : Nat) (text : List String) (usb : USB) (bus : USBBus),
      text.length ≤ fuel →
      (∀ x ∈ text, ':' ∈ x.data) →
      ∃ usb' rest', parseBusLoopF fuel usb bus text = some (usb', rest') ∧
        ∀ x ∈ rest', ':' ∈ x.data := by
  intro fuel
  induction fuel with
  | zero =>
    intro text usb bus hlen hcol
    have : text = [] := List.length_eq_zero.mp (Nat.le_zero.mp hlen)
    subst this
    exact ⟨usb.add (bus.add none), [], rfl, by intro x hx; cases hx⟩
  | succ fuel ih =>
    intro text usb bus hlen hcol
    cases text with
    | nil => exact ⟨usb.add (bus.add none), [], rfl, by intro x hx; cases hx⟩
    | cons l rest =>
      have hcl : ':' ∈ l.data := hcol l (List.mem_cons_self l rest)
      have hcrest : ∀ x ∈ rest, ':' ∈ x.data :=
        fun x hx => hcol x (List.mem_cons_of_mem l hx)
      have hlen' : rest.length ≤ fuel := Nat.le_of_succ_le_succ hlen
      by_cases hb : strEndsWith (pyStrip l) "Bus:" = true
      · refine ⟨usb.add (bus.add none), pyStrip l :: rest, ?_, ?_⟩
        · simp only [parseBusLoopF]
          rw [if_pos hb]
        · intro x hx
          rcases List.mem_cons.mp hx with hx | hx
          · subst hx; exact mem_colon_pyStrip hcl
          · exact hcrest x hx
      · by_cases hc : strEndsWith (pyStrip l) ":" = true
        · obtain ⟨bus1, rest1, hrun, hinv⟩ :=
            parseDevLoop_some bus rest (USBDevice.mk (pyDropLast (pyStrip l)) []) hcrest
          have hle1 : rest1.length ≤ fuel :=
            Nat.le_trans (parseDevLoop_rest_le bus rest _ bus1 rest1 hrun) hlen'
          obtain ⟨usb', rest', hrun2, hinv2⟩ := ih rest1 usb bus1 hle1 hinv
          refine ⟨usb', rest', ?_, hinv2⟩
          simp only [parseBusLoopF]
          rw [if_neg hb, if_pos hc]
          show (match parse_dev bus (pyDropLast (pyStrip l)) rest with
            | some (bus', rest') => parseBusLoopF fuel usb bus' rest'
            | none => none) = some (usb', rest')
          rw [show parse_dev bus (pyDropLast (pyStrip l)) rest = some (bus1, rest1) from hrun]
          exact hrun2
        · obtain ⟨⟨n, v⟩, hs⟩ := splitFirst?_isSome (mem_colon_pyStrip hcl)
          obtain ⟨usb', rest', hrun2, hinv2⟩ :=
            ih rest usb (bus.set (pyStrip n) (pyStrip v)) hlen' hcrest
          refine ⟨usb', rest', ?_, hinv2⟩
          simp only [parseBusLoopF]
          rw [if_neg hb, if_neg hc, hs]
          exact hrun2

theorem parseLoopF_rest_nil :
    ∀ (fuel : Nat) (usb : USB) (text : List String) (usb' : USB) (rest' : List String),
      parseLoopF fuel usb text = some (usb', rest') → rest' = [] := by
  intro fuel
  induction fuel with
  | zero =>
    intro usb text usb' rest' h
    cases text with
    | nil =>
      simp only [parseLoopF, Option.some.injEq, Prod.mk.injEq] at h
      exact h.2.symm
    | cons l rest => simp [parseLoopF] at h
  | succ fuel ih =>
    intro usb text usb' rest' h
    cases text with
    | nil =>
      simp only [parseLoopF, Option.some.injEq, Prod.mk.injEq] at h
      exact h.2.symm
    | cons l rest =>
      simp only [parseLoopF] at h
      by_cases hb : strEndsWith (pyStrip l) "Bus:" = true
      · rw [if_pos hb] at h
        rcases hd : parse_bus usb (pyDropLast (pyStrip l)) rest with _ | ⟨usb1, rest1⟩
        · rw [hd] at h; cases h
        · rw [hd] at h
          exact ih usb1 rest1 usb' rest' h
      · rw [if_neg hb] at h
        rcases hs : splitFirst? ':' (pyStrip l) with _ | ⟨n, v⟩
        · rw [hs] at h; cases h
        · rw [hs] at h
          exact ih _ rest usb' rest' h

theorem parseLoopF_spec :
    ∀ (fuel : Nat) (usb : USB) (text : List String) (usb' : USB) (rest' : List String),
      parseLoopF fuel usb text = some (usb', rest') →
      (∀ b ∈ usb.list, headP b ∧ b.list ≠ []) →
      (∀ b ∈ usb'.list, headP b ∧ b.list ≠ []) ∧
        ∃ suf, usb'.list = usb.list ++ suf := by
  intro fuel
  induction fuel with
  | zero =>
    intro usb text usb' rest' h hinv
    cases text with
    | nil =>
      simp only [parseLoopF, Option.some.injEq, Prod.mk.injEq] at h
      rw [← h.1]
      exact ⟨hinv, [], by simp⟩
    | cons l rest => simp [parseLoopF] at h
  | succ fuel ih =>
    intro usb text usb' rest' h hinv
    cases text with
    | nil =>
      simp only [parseLoopF, Option.some.injEq, Prod.mk.injEq] at h
      rw [← h.1]
      exact ⟨hinv, [], by simp⟩
    | cons l rest =>
      simp only [parseLoopF] at h
      by_cases hb : strEndsWith (pyStrip l) "Bus:" = true
      · rw [if_pos hb] at h
        rcases hd : parse_bus usb (pyDropLast (pyStrip l)) rest with _ | ⟨usb1, rest1⟩
        · rw [hd] at h; cases h
        · rw [hd] at h
          obtain ⟨⟨b', hb1, hb2, _, hb4⟩, _⟩ :=
            parseBusLoopF_spec rest.length usb
              (USBBus.mk (pyDropLast (pyStrip l)) [] []) rest usb1 rest1 hd
              (Or.inl rfl) (Or.inl rfl)
          have hinv1 : ∀ b ∈ usb1.list, headP b ∧ b.list ≠ [] := by
            intro b hbmem
            rw [hb1] at hbmem
            simp only [USB.add] at hbmem
            rcases List.mem_append.mp hbmem with hm | hm
            · exact hinv b hm
            · rw [List.mem_singleton.mp hm]
              exact ⟨hb2, hb4⟩
          obtain ⟨hfin, suf1, hsuf1⟩ := ih usb1 rest1 usb' rest' h hinv1
          refine ⟨hfin, [b'] ++ suf1, ?_⟩
          rw [hsuf1, hb1]
          simp [USB.add]
      · rw [if_neg hb] at h
        rcases hs : splitFirst? ':' (pyStrip l) with _ | ⟨n, v⟩
        · rw [hs] at h; cases h
        · rw [hs] at h
          have hinv1 : ∀ b ∈ (USB.set usb (pyStrip n) (pyStrip v)).list, headP b ∧ b.list ≠ [] := by
            intro b hbmem
            exact hinv b hbmem
          obtain ⟨hfin, suf1, hsuf1⟩ := ih _ rest usb' rest' h hinv1
          exact ⟨hfin, suf1, hsuf1⟩

theorem parseLoopF_some :
    ∀ (fuel : Nat) (text : List String) (usb : USB),
      text.length ≤ fuel →
      (∀ x ∈ text, ':' ∈ x.data) →
      ∃ usb', parseLoopF fuel usb text = some (usb', []) := by
  intro fuel
  induction fuel with
  | zero =>
    intro text usb hlen _
    have : text = [] := List.length_eq_zero.mp (Nat.le_zero.mp hlen)
    subst this
    exact ⟨usb, rfl⟩
  | succ fuel ih =>
    intro text usb hlen hcol
    cases text with
    | nil => exact ⟨usb, rfl⟩
    | cons l rest =>
      have hcl : ':' ∈ l.data := hcol l (List.mem_cons_self l rest)
      have hcrest : ∀ x ∈ rest, ':' ∈ x.data :=
        fun x hx => hcol x (List.mem_cons_of_mem l hx)
      have hlen' : rest.length ≤ fuel := Nat.le_of_succ_le_succ hlen
      by_cases hb : strEndsWith (pyStrip l) "Bus:" = true
      · obtain ⟨usb1, rest1, hrun, hinv⟩ :=
          parseBusLoopF_some rest.length rest usb
            (USBBus.mk (pyDropLast (pyStrip l)) [] []) (Nat.le_refl _) hcrest
        have hle1 : rest1.length ≤ fuel :=
          Nat.le_trans (parseBusLoopF_rest_le rest.length usb _ rest usb1 rest1 hrun) hlen'
        obtain ⟨usb', hrun2⟩ := ih rest1 usb1 hle1 hinv
        refine ⟨usb', ?_⟩
        simp only [parseLoopF]
        rw [if_pos hb]
        show (match parse_bus usb (pyDropLast (pyStrip l)) rest with
          | some (usb', rest') => parseLoopF fuel usb' rest'
          | none => none) = some (usb', [])
        rw [show parse_bus usb (pyDropLast (pyStrip l)) rest = some (usb1, rest1) from hrun]
        exact hrun2
      · obtain ⟨⟨n, v⟩, hs⟩ := splitFirst?_isSome (mem_colon_pyStrip hcl)
        obtain ⟨usb', hrun2⟩ := ih rest (USB.set usb (pyStrip n) (pyStrip v)) hlen' hcrest
        refine ⟨usb', ?_⟩
        simp only [parseLoopF]
        rw [if_neg hb, hs]
        exact hrun2

theorem mapOpt_length {α β : Type} (f : α → Option β) :
    ∀ (l : List α) (l' : List β), mapOpt f l = some l' → l'.length = l.length := by
  intro l
  induction l with
  | nil =>
    intro l' h
    simp only [mapOpt, Option.some.injEq] at h
    rw [← h]
    rfl
  | cons x xs ih =>
    intro l' h
    rcases hx : f x with _ | y
    · simp only [mapOpt, hx] at h
      exact Option.noConfusion h
    · rcases hxs : mapOpt f xs with _ | ys
      · simp only [mapOpt, hx, hxs] at h
        exact Option.noConfusion h
      · simp only [mapOpt, hx, hxs, Option.some.injEq] at h
        rw [← h]
        simp [ih ys hxs]

theorem mapOpt_mem {α β : Type} (f : α → Option β) :
    ∀ (l : List α) (l' : List β), mapOpt f l = some l' →
      ∀ y ∈ l', ∃ x ∈ l, f x = some y := by
  intro l
  induction l with
  | nil =>
    intro l' h y hy
    simp only [mapOpt, Option.some.injEq] at h
    rw [← h] at hy
    cases hy
  | cons x xs ih =>
    intro l' h y hy
    rcases hx : f x with _ | z
    · simp only [mapOpt, hx] at h
      exact Option.noConfusion h
    · rcases hxs : mapOpt f xs with _ | zs
      · simp only [mapOpt, hx, hxs] at h
        exact Option.noConfusion h
      · simp only [mapOpt, hx, hxs, Option.some.injEq] at h
        rw [← h] at hy
        rcases List.mem_cons.mp hy with hy | hy
        · exact ⟨x, List.mem_cons_self x xs, by rw [hx, hy]⟩
        · obtain ⟨x', hx1, hx2⟩ := ih zs hxs y hy
          exact ⟨x', List.mem_cons_of_mem x hx1, hx2⟩

theorem joinLines_count :
    ∀ (lines : List String), lines ≠ [] → (∀ L ∈ lines, nlCount L = 0) →
      nlCount (strJoin "\n" lines) + 1 = lines.length := by
  intro lines
  induction lines with
  | nil => intro h; exact absurd rfl h
  | cons x xs ih =>
    intro _ hall
    cases xs with
    | nil =>
      have hx : nlCount x = 0 := hall x (List.mem_cons_self x [])
      simp [strJoin, hx]
    | cons y ys =>
      have hx : nlCount x = 0 := hall x (List.mem_cons_self x (y :: ys))
      have hih := ih (by simp) (fun L hL => hall L (List.mem_cons_of_mem x hL))
      rw [strJoin, nlCount_append, nlCount_append, hx]
      have hnl : nlCount "\n" = 1 := by decide
      rw [hnl]
      simp only [List.length_cons] at hih ⊢
      omega

theorem USBBus_str_count {b : USBBus} {s : String} (h : USBBus.str b = some s)
    (hne : b.list ≠ [])
    (hnl : ∀ d ∈ b.list, ∀ L, USBDevice.str b.attr d = some L → nlCount L = 0) :
    nlCount s + 1 = b.list.length := by
  unfold USBBus.str at h
  rcases hm : mapOpt (USBDevice.str b.attr) b.list with _ | lines
  · rw [hm] at h; cases h
  · rw [hm] at h
    simp only [Option.map_some', Option.some.injEq] at h
    have hlen := mapOpt_length _ _ _ hm
    have hlne : lines ≠ [] := by
      intro h0
      rw [h0] at hlen
      exact hne (List.length_eq_zero.mp hlen.symm)
    have hall : ∀ L ∈ lines, nlCount L = 0 := by
      intro L hL
      obtain ⟨d, hd, hfd⟩ := mapOpt_mem _ _ _ hm L hL
      exact hnl d hd L hfd
    rw [← h, ← hlen]
    exact joinLines_count lines hlne hall

theorem busesJoin_count :
    ∀ (bl : List USBBus) (parts : List String),
      mapOpt USBBus.str bl = some parts → bl ≠ [] →
      (∀ b ∈ bl, b.list ≠ []) →
      (∀ b ∈ bl, ∀ d ∈ b.list, ∀ L, USBDevice.str b.attr d = some L → nlCount L = 0) →
      nlCount (strJoin "\n" parts) + 1 = (bl.map (fun b => b.list.length)).sum := by
  intro bl
  induction bl with
  | nil => intro parts _ hne; exact absurd rfl hne
  | cons b bl' ih =>
    intro parts hm _ hne hnl
    rcases hsb : USBBus.str b with _ | s
    · simp only [mapOpt, hsb] at hm
      exact Option.noConfusion hm
    · rcases hm' : mapOpt USBBus.str bl' with _ | parts'
      · simp only [mapOpt, hsb, hm'] at hm
        exact Option.noConfusion hm
      · simp only [mapOpt, hsb, hm', Option.some.injEq] at hm
        have hbcount : nlCount s + 1 = b.list.length :=
          USBBus_str_count hsb (hne b (List.mem_cons_self b bl'))
            (hnl b (List.mem_cons_self b bl'))
        cases bl' with
        | nil =>
          simp only [mapOpt, Option.some.injEq] at hm'
          rw [← hm, ← hm']
          simp [strJoin, hbcount]
        | cons b2 bl'' =>
          have hplen := mapOpt_length _ _ _ hm'
          rcases hp : parts' with _ | ⟨p2, ps⟩
          · rw [hp] at hplen; simp at hplen
          · have hih := ih parts' hm' (by simp)
              (fun x hx => hne x (List.mem_cons_of_mem b hx))
              (fun x hx => hnl x (List.mem_cons_of_mem b hx))
            rw [← hm, hp, strJoin, nlCount_append, nlCount_append]
            have hnl1 : nlCount "\n" = 1 := by decide
            rw [hnl1, hp] at *
            rw [List.map_cons, List.sum_cons]
            rw [hp] at hih
            omega

theorem USB_str_count {u : USB} {s : String} (h : USB.str u = some s)
    (hne : u.list ≠ [])
    (hbne : ∀ b ∈ u.list, b.list ≠ [])
    (hnl : ∀ b ∈ u.list, ∀ d ∈ b.list, ∀ L, USBDevice.str b.attr d = some L → nlCount L = 0) :
    nlCount s + 1 = totalDeviceCount u := by
  unfold USB.str at h
  rcases hm : mapOpt USBBus.str u.list with _ | parts
  · rw [hm] at h; cases h
  · rw [hm] at h
    simp only [Option.map_some', Option.some.injEq] at h
    rw [← h]
    exact busesJoin_count u.list parts hm hne hbne hnl

theorem USBDevice_str_hub {busAttr : Attrs} {d : USBDevice} {busId : String}
    (h1 : getAttr? d.attr "Product ID" = none) (h2 : busNumHub busAttr = some busId) :
    USBDevice.str busAttr d = some ("Bus " ++ busId ++ " Device 001: ID 05ac:" ++ prdIdHub d
      ++ " " ++ mfrDisplay ("(" ++ DEFAULT_VENDOR ++ ")") ++ " " ++ d.name ++ serHub d) := by
  simp only [USBDevice.str, h1, h2, Option.isSome_none, Bool.false_eq_true, if_false]

theorem USBDevice_str_explicit {busAttr : Attrs} {d : USBDevice} {busId devId : String}
    (h1 : (getAttr? d.attr "Product ID").isSome = true)
    (h2 : busNumExplicit busAttr d = some busId)
    (h3 : devSlotOf d = some devId) :
    USBDevice.str busAttr d = some ("Bus " ++ busId ++ " Device " ++ devId ++ ": ID "
      ++ vndIdExplicit d ++ ":" ++ prdIdExplicit d ++ " " ++ mfrDisplay (mfrExplicit d)
      ++ " " ++ d.name ++ serExplicit d) := by
  simp only [USBDevice.str, h1, h2, h3, if_true]

theorem parse_cons_anchor (rest : List String) :
    parse ("USB:" :: rest) = parseLoopF rest.length (USB.mk [] []) rest := by
  simp [parse]

/-- C1 (counterexample): on a report whose single Bus receives an explicit
Device (holding a Product ID) on its very first add call, the code still
synthesizes a root hub, so the output has 2 lines while the claim's formula
(explicit devices plus one root hub per bus with zero explicit devices)
predicts 1 + 0 = 1. -/
theorem c1_counterexample :
    ((parse c1input).bind (fun p => USB.str p.1)).map (fun s => nlCount s + 1) = some 2
    ∧ (parse c1input).map (fun p => explicitDeviceCount p.1) = some 1
    ∧ (parse c1input).map (fun p => emptyBusCount p.1) = some 0
    ∧ (2 : Nat) ≠ 1 + 0 :=
  ⟨rfl, rfl, rfl, by decide⟩

/-- C1 (amended): USBBus.add synthesizes the root-hub first child on the
very first add call regardless of whether the entry is the None placeholder
or an explicit Device, so every Bus gets a synthetic root hub; consequently
the formatted line count equals the total number of Device children (the
explicit devices plus one synthetic root hub per Bus), provided every bus
has a child, there is at least one bus, and each device line is
newline-free. -/
theorem c1_amended_line_count :
    (∀ (b : USBBus) (e : Option USBDevice), b.list = [] →
        (USBBus.add b e).list = USBDevice.mk b.name b.attr :: e.toList)
    ∧ ∀ (u : USB) (s : String), USB.str u = some s → u.list ≠ [] →
        (∀ b ∈ u.list, b.list ≠ []) →
        (∀ b ∈ u.list, ∀ d ∈ b.list, ∀ L, USBDevice.str b.attr d = some L → nlCount L = 0) →
        nlCount s + 1 = totalDeviceCount u := by
  constructor
  · intro b e h
    exact USBBus.add_list_of_empty h e
  · intro u s h hne hbne hnl
    exact USB_str_count h hne hbne hnl

/-- C1 (witness): the amended statement applied to a one-bus tree whose
first add carries an explicit device, and to a one-bus one-device tree. -/
theorem c1_amended_line_count_witness :
    (USBBus.add (USBBus.mk "B" [] []) (some (USBDevice.mk "D" [("Product ID", "0x1402")]))).list
      = USBDevice.mk "B" [] :: (some (USBDevice.mk "D" [("Product ID", "0x1402")])).toList
    ∧ nlCount "Bus 999 Device 001: ID 05ac:0x???? Apple Inc. B, ???" + 1
      = totalDeviceCount (USB.mk [] [USBBus.mk "B" [] [USBDevice.mk "B" []]]) := by
  constructor
  · exact c1_amended_line_count.1 (USBBus.mk "B" [] [])
      (some (USBDevice.mk "D" [("Product ID", "0x1402")])) rfl
  · refine c1_amended_line_count.2 (USB.mk [] [USBBus.mk "B" [] [USBDevice.mk "B" []]])
      "Bus 999 Device 001: ID 05ac:0x???? Apple Inc. B, ???" (by rfl) (by decide) ?_ ?_
    · intro b hb
      have hb' := List.mem_singleton.mp hb
      rw [hb']
      decide
    · intro b hb d hd L hL
      have hb' := List.mem_singleton.mp hb
      subst hb'
      have hd' := List.mem_singleton.mp hd
      subst hd'
      have heval : USBDevice.str (USBBus.mk "B" [] []).attr (USBDevice.mk "B" []) =
          some "Bus 999 Device 001: ID 05ac:0x???? Apple Inc. B, ???" := rfl
      rw [heval, Option.some.injEq] at hL
      subst hL
      decide

/-- C2 (counterexample): the sample report of the module's documentation
comment formats to 5 lines, not the claimed 4: the first bus contributes a
synthetic root-hub line in addition to its two explicit devices. -/
theorem c2_counterexample :
    ((parse sampleReport).bind (fun p => USB.str p.1)).map (fun s => nlCount s + 1) = some 5
    ∧ (5 : Nat) ≠ 4 :=
  ⟨by decide, by decide⟩

/-- C2 (amended): parsing and formatting the sample report produces exactly
5 lines in document order: the synthetic root hub of the first bus, its two
explicit devices, then one synthetic root-hub line per empty bus. -/
theorem c2_amended_sample_output :
    (parse sampleReport).bind (fun p => USB.str p.1) =
      some ("Bus 999 Device 001: ID 05ac:8007 Apple Inc. USB 3.0 Bus, AppleUSBXHCISPTLP\n"
        ++ "Bus 020 Device 004: ID 05ac:1402 Apple Inc. Apple USB Ethernet Adapter, Serial: 267DCA\n"
        ++ "Bus 020 Device 000: ID 05ac:8600 Apple Inc. iBridge\n"
        ++ "Bus 001 Device 001: ID 05ac:8007 Apple Inc. USB 3.1 Bus, AppleUSBXHCIAR\n"
        ++ "Bus 000 Device 001: ID 05ac:8007 Apple Inc. USB 3.1 Bus, AppleUSBXHCIAR") := by
  decide

/-- C3 (counterexample): for Location ID "0x14500000 / 10" the code parses
the text after the slash with Python int() in base 10 (value 10, rendered
"00a"), while the claim's hexadecimal reading would give 0x10 = 16
(rendered "010"); the full formatted line shows the "00a" slot. -/
theorem c3_counterexample :
    devSlotOf (USBDevice.mk "X" [("Product ID", "0x1402"), ("Location ID", "0x14500000 / 10")])
      = some "00a"
    ∧ devSlotClaim (USBDevice.mk "X" [("Product ID", "0x1402"), ("Location ID", "0x14500000 / 10")])
      = some "010"
    ∧ USBDevice.str [] (USBDevice.mk "X" [("Product ID", "0x1402"), ("Location ID", "0x14500000 / 10")])
      = some "Bus 020 Device 00a: ID 1d6b:1402 Apple Inc. X"
    ∧ ("00a" : String) ≠ "010" :=
  ⟨rfl, rfl, rfl, by decide⟩

/-- C3 (amended): when a Location ID attribute is present and contains a
slash, the dev_slot field is the text after the first slash, trimmed, parsed
as a decimal integer, and rendered as 3-digit zero-padded lowercase
hexadecimal; when the attribute is absent or has no slash it is the literal
"000"; and the dev_slot value is the second numeric field of the formatted
explicit-device line. -/
theorem c3_amended_dev_slot :
    (∀ (d : USBDevice) (loc : String),
        getAttr? d.attr "Location ID" = some loc → loc.data.contains '/' = true →
        devSlotOf d = (pyInt? 10 (pyStrip (afterFirstD '/' loc))).map fmt03x)
    ∧ (∀ (d : USBDevice) (loc : String),
        getAttr? d.attr "Location ID" = some loc → loc.data.contains '/' = false →
        devSlotOf d = some "000")
    ∧ (∀ (d : USBDevice),
        getAttr? d.attr "Location ID" = none → devSlotOf d = some "000")
    ∧ ∀ (busAttr : Attrs) (d : USBDevice) (busId devId : String),
        (getAttr? d.attr "Product ID").isSome = true →
        busNumExplicit busAttr d = some busId →
        devSlotOf d = some devId →
        USBDevice.str busAttr d = some ("Bus " ++ busId ++ " Device " ++ devId ++ ": ID "
          ++ vndIdExplicit d ++ ":" ++ prdIdExplicit d ++ " " ++ mfrDisplay (mfrExplicit d)
          ++ " " ++ d.name ++ serExplicit d) := by
  refine ⟨?_, ?_, ?_, ?_⟩
  · intro d loc h1 h2
    simp only [devSlotOf, h1]
    rw [if_pos h2]
  · intro d loc h1 h2
    simp only [devSlotOf, h1]
    rw [if_neg (by rw [h2]; exact Bool.false_ne_true)]
  · intro d h1
    simp only [devSlotOf, h1]
  · intro busAttr d busId devId h1 h2 h3
    exact USBDevice_str_explicit h1 h2 h3

/-- C3 (witness): the amended slot rule applied to the sample's Location ID
value. -/
theorem c3_amended_dev_slot_witness :
    devSlotOf (USBDevice.mk "Y" [("Location ID", "0x14500000 / 4")]) =
      (pyInt? 10 (pyStrip (afterFirstD '/' "0x14500000 / 4"))).map fmt03x :=
  c3_amended_dev_slot.1 (USBDevice.mk "Y" [("Location ID", "0x14500000 / 4")])
    "0x14500000 / 4" (by rfl) (by decide)

/-- C4 (counterexample): the heading line "USB 3.1 Bus:" yields a Bus named
"USB 3.1 Bus" (only the trailing colon is removed), not "USB 3.1" as the
claim states. -/
theorem c4_counterexample :
    (parse ["USB:", "USB 3.1 Bus:"]).map (fun p => p.1.list.map USBBus.name)
      = some ["USB 3.1 Bus"]
    ∧ ("USB 3.1 Bus" : String) ≠ "USB 3.1" :=
  ⟨rfl, by decide⟩

/-- C4 (amended): for every line opening a Bus section (its stripped text
ends in "Bus:"), the resulting Bus node's name is the stripped line with
only its trailing colon removed (so "USB 3.1 Bus:" yields "USB 3.1 Bus"). -/
theorem c4_amended_bus_name :
    ∀ (l : String) (rest : List String) (u : USB) (r : List String),
      strEndsWith (pyStrip l) "Bus:" = true →
      parse ("USB:" :: l :: rest) = some (u, r) →
      ∃ b suf, u.list = b :: suf ∧ b.name = pyDropLast (pyStrip l) := by
  intro l rest u r hends h
  rw [parse_cons_anchor] at h
  simp only [List.length_cons] at h
  simp only [parseLoopF] at h
  rw [if_pos hends] at h
  rcases hd : parse_bus (USB.mk [] []) (pyDropLast (pyStrip l)) rest with _ | ⟨usb1, rest1⟩
  · rw [hd] at h
    exact Option.noConfusion h
  · rw [hd] at h
    obtain ⟨⟨b', hb1, hb2, hb3, hb4⟩, _⟩ := parseBusLoopF_spec rest.length (USB.mk [] [])
      (USBBus.mk (pyDropLast (pyStrip l)) [] []) rest usb1 rest1 hd (Or.inl rfl) (Or.inl rfl)
    have hinv1 : ∀ x ∈ usb1.list, headP x ∧ x.list ≠ [] := by
      intro x hx
      rw [hb1] at hx
      simp only [USB.add, List.nil_append] at hx
      rw [List.mem_singleton.mp hx]
      exact ⟨hb2, hb4⟩
    obtain ⟨_, suf, hsuf⟩ := parseLoopF_spec rest.length usb1 rest1 u r h hinv1
    refine ⟨b', suf, ?_, hb3⟩
    rw [hsuf, hb1]
    simp [USB.add]

/-- C4 (witness): the amended naming rule applied to the two-line report
consisting of the anchor and one bus heading. -/
theorem c4_amended_bus_name_witness :
    ∃ b suf,
      (USB.mk [] [USBBus.mk "USB 3.1 Bus" [] [USBDevice.mk "USB 3.1 Bus" []]]).list
        = b :: suf
      ∧ b.name = pyDropLast (pyStrip "USB 3.1 Bus:") :=
  c4_amended_bus_name "USB 3.1 Bus:" []
    (USB.mk [] [USBBus.mk "USB 3.1 Bus" [] [USBDevice.mk "USB 3.1 Bus" []]]) []
    (by decide) (by rfl)

/-- C5: parse fails (models the AssertionError as none) on an empty input
and on any input whose first line differs from the exact anchor "USB:"; in
the failure cases no partial tree is produced; with the anchor present, the
anchor line is consumed and the main loop starts on the remainder from a
fresh empty USB root. -/
theorem c5_anchor_required :
    parse [] = none
    ∧ (∀ (l : String) (rest : List String), l ≠ "USB:" → parse (l :: rest) = none)
    ∧ ∀ (rest : List String),
        parse ("USB:" :: rest) = parseLoopF rest.length (USB.mk [] []) rest := by
  refine ⟨rfl, ?_, parse_cons_anchor⟩
  intro l rest hl
  simp [parse, hl]

/-- C5 (witness): a report starting with a non-anchor line is rejected. -/
theorem c5_anchor_required_witness : parse ["SPUSBDataType:"] = none :=
  c5_anchor_required.2.1 "SPUSBDataType:" [] (by decide)

/-- C6: for a root-hub device (no Product ID attribute) the formatted line
carries prdIdHub as product field, which is exactly the stripped Host
Controller Driver attribute (else Product ID, default "0x????") sent
through the fixed table OHCI to 8005, EHCI to 8006, XHCI to 8007,
AppleUSBXHCISPTLP to 8007, AppleUSBXHCIAR to 8007, all other values passing
through unchanged; in particular AppleUSBXHCISPTLP yields 8007. -/
theorem c6_hub_product_id :
    (∀ (busAttr : Attrs) (d : USBDevice) (busId : String),
        getAttr? d.attr "Product ID" = none →
        busNumHub busAttr = some busId →
        USBDevice.str busAttr d = some ("Bus " ++ busId ++ " Device 001: ID 05ac:"
          ++ prdIdHub d ++ " " ++ mfrDisplay ("(" ++ DEFAULT_VENDOR ++ ")") ++ " "
          ++ d.name ++ serHub d))
    ∧ (∀ (d : USBDevice), prdIdHub d = ctrlMap (pyStrip (getAttrD d.attr
        "Host Controller Driver" (getAttrD d.attr "Product ID" "0x????"))))
    ∧ ctrlMap "OHCI" = "8005" ∧ ctrlMap "EHCI" = "8006" ∧ ctrlMap "XHCI" = "8007"
    ∧ ctrlMap "AppleUSBXHCISPTLP" = "8007" ∧ ctrlMap "AppleUSBXHCIAR" = "8007"
    ∧ (∀ s : String,
        s ∉ (["OHCI", "EHCI", "XHCI", "AppleUSBXHCISPTLP", "AppleUSBXHCIAR"] : List String) →
        ctrlMap s = s)
    ∧ prdIdHub (USBDevice.mk "h" [("Host Controller Driver", "AppleUSBXHCISPTLP")]) = "8007" := by
  refine ⟨?_, fun d => rfl, rfl, rfl, rfl, rfl, rfl, ?_, rfl⟩
  · intro busAttr d busId h1 h2
    exact USBDevice_str_hub h1 h2
  · intro s hs
    simp only [List.mem_cons, List.not_mem_nil, or_false] at hs
    push_neg at hs
    obtain ⟨h1, h2, h3, h4, h5⟩ := hs
    simp [ctrlMap, h1, h2, h3, h4, h5]

/-- C6 (witness): a root-hub device whose bus has Bus Number 0x01 and whose
attributes carry Host Controller Driver AppleUSBXHCISPTLP formats with
product field 8007. -/
theorem c6_hub_product_id_witness :
    USBDevice.str [("Bus Number", "0x01")]
        (USBDevice.mk "USB 3.0 Bus" [("Host Controller Driver", "AppleUSBXHCISPTLP")]) =
      some "Bus 001 Device 001: ID 05ac:8007 Apple Inc. USB 3.0 Bus, AppleUSBXHCISPTLP" :=
  c6_hub_product_id.1 [("Bus Number", "0x01")]
    (USBDevice.mk "USB 3.0 Bus" [("Host Controller Driver", "AppleUSBXHCISPTLP")])
    "001" (by rfl) (by rfl)

/-- C7: an explicit device with Vendor ID "0x05ac (Apple Inc.)" and no
Manufacturer attribute formats with vendor field "05ac" (text before the
first space with the first two characters dropped) and displayed
manufacturer "Apple Inc." (text after the first space, stripped, with
surrounding parentheses and whitespace removed). -/
theorem c7_vendor_manufacturer :
    ∀ (busAttr : Attrs) (d : USBDevice) (busId devId : String),
      (getAttr? d.attr "Product ID").isSome = true →
      getAttr? d.attr "Vendor ID" = some "0x05ac (Apple Inc.)" →
      getAttr? d.attr "Manufacturer" = none →
      busNumExplicit busAttr d = some busId →
      devSlotOf d = some devId →
      vndIdExplicit d = "05ac"
      ∧ mfrDisplay (mfrExplicit d) = "Apple Inc."
      ∧ USBDevice.str busAttr d = some ("Bus " ++ busId ++ " Device " ++ devId ++ ": ID "
          ++ vndIdExplicit d ++ ":" ++ prdIdExplicit d ++ " " ++ mfrDisplay (mfrExplicit d)
          ++ " " ++ d.name ++ serExplicit d) := by
  intro busAttr d busId devId hP hV hM h2 h3
  refine ⟨?_, ?_, USBDevice_str_explicit hP h2 h3⟩
  · simp only [vndIdExplicit, getAttrD, hV]
    rfl
  · simp only [mfrExplicit, getAttrD, hV, hM]
    rfl

/-- C7 (witness): the rule applied to a concrete Apple device. -/
theorem c7_vendor_manufacturer_witness :
    vndIdExplicit (USBDevice.mk "Dev"
        [("Product ID", "0x1402"), ("Vendor ID", "0x05ac (Apple Inc.)")]) = "05ac"
    ∧ mfrDisplay (mfrExplicit (USBDevice.mk "Dev"
        [("Product ID", "0x1402"), ("Vendor ID", "0x05ac (Apple Inc.)")])) = "Apple Inc."
    ∧ USBDevice.str [] (USBDevice.mk "Dev"
        [("Product ID", "0x1402"), ("Vendor ID", "0x05ac (Apple Inc.)")]) =
      some "Bus 000 Device 000: ID 05ac:1402 Apple Inc. Dev" :=
  c7_vendor_manufacturer [] (USBDevice.mk "Dev"
      [("Product ID", "0x1402"), ("Vendor ID", "0x05ac (Apple Inc.)")])
    "000" "000" (by rfl) (by rfl) (by rfl) (by rfl) (by rfl)

/-- C8: a Device with no attributes at all formats without failure through
the root-hub branch with every fallback default: bus number 999 (from the
default "3e7" when the owning bus has no Bus Number attribute), dev slot
001, vendor 05ac, product "0x????" passed through the controller mapping
unchanged, manufacturer display "Apple Inc.", serial suffix ", ???"; and
the parser appends a device section with no key/value lines as such an
attribute-less Device. -/
theorem c8_no_attr_device_safe :
    ∀ (busAttr : Attrs) (name : String) (l : String) (rest : List String) (bus : USBBus),
      (getAttr? busAttr "Bus Number" = none →
        USBDevice.str busAttr (USBDevice.mk name []) =
          some ("Bus 999 Device 001: ID 05ac:0x???? Apple Inc. " ++ name ++ ", ???"))
      ∧ (strEndsWith (pyStrip l) ":" = true →
          parseDevLoop bus (USBDevice.mk name []) (l :: rest) =
            some (bus.add (some (USBDevice.mk name [])), pyStrip l :: rest)) := by
  intro busAttr name l rest bus
  constructor
  · intro hB
    have h1 : getAttr? (USBDevice.mk name []).attr "Product ID" = none := rfl
    have h2 : busNumHub busAttr = some "999" := by
      simp only [busNumHub, getAttrD, hB]
      rfl
    rw [USBDevice_str_hub h1 h2]
    have hprd : prdIdHub (USBDevice.mk name []) = "0x????" := rfl
    have hser : serHub (USBDevice.mk name []) = ", ???" := rfl
    have hmfr : mfrDisplay ("(" ++ DEFAULT_VENDOR ++ ")") = "Apple Inc." := by decide
    rw [hprd, hser, hmfr]
    have hpre : ("Bus " : String) ++ "999" ++ " Device 001: ID 05ac:" ++ "0x????" ++ " "
        ++ "Apple Inc." ++ " " = "Bus 999 Device 001: ID 05ac:0x???? Apple Inc. " := by decide
    rw [hpre]
  · intro hc
    rw [parseDevLoop, if_pos hc]

/-- C8 (witness): the rule applied to a concrete attribute-less device and
to a device section closed immediately by a boundary line. -/
theorem c8_no_attr_device_safe_witness :
    USBDevice.str [] (USBDevice.mk "N" []) =
      some ("Bus 999 Device 001: ID 05ac:0x???? Apple Inc. " ++ "N" ++ ", ???")
    ∧ parseDevLoop (USBBus.mk "B" [] []) (USBDevice.mk "N" []) ["X:"] =
        some ((USBBus.mk "B" [] []).add (some (USBDevice.mk "N" [])), pyStrip "X:" :: []) :=
  ⟨(c8_no_attr_device_safe [] "N" "X:" [] (USBBus.mk "B" [] [])).1 (by rfl),
   (c8_no_attr_device_safe [] "N" "X:" [] (USBBus.mk "B" [] [])).2 (by decide)⟩

/-- C9: in every tree returned by parse, every Bus has at least one child,
and the first child is the synthetic root-hub Device whose name equals the
Bus's name and whose attribute map equals the Bus's final attribute map;
since parse_bus never sets a bus attribute after the first add (the line
resumed after a device section always ends in a colon), the final bus
attributes are exactly the attributes at the moment of the first add, so
the synthetic child is an unmodified copy of that snapshot. -/
theorem c9_first_child_synthetic :
    ∀ (text : List String) (u : USB) (r : List String),
      parse text = some (u, r) →
      ∀ b ∈ u.list, b.list ≠ [] ∧ b.list.head? = some (USBDevice.mk b.name b.attr) := by
  intro text u r h b hb
  cases text with
  | nil => exact Option.noConfusion h
  | cons l rest =>
    simp only [parse] at h
    by_cases hl : l = "USB:"
    · rw [if_pos hl] at h
      obtain ⟨hinv, _⟩ := parseLoopF_spec rest.length (USB.mk [] []) rest u r h
        (by intro x hx; cases hx)
      obtain ⟨h1, h2⟩ := hinv b hb
      exact ⟨h2, h1⟩
    · rw [if_neg hl] at h
      exact Option.noConfusion h

/-- C9 (witness): the invariant read off the parse of a one-bus report
whose bus attributes are set before finalization. -/
theorem c9_first_child_synthetic_witness :
    (USBBus.mk "B Bus" [("Bus Number", "0x01")]
        [USBDevice.mk "B Bus" [("Bus Number", "0x01")]]).list ≠ []
    ∧ (USBBus.mk "B Bus" [("Bus Number", "0x01")]
        [USBDevice.mk "B Bus" [("Bus Number", "0x01")]]).list.head? =
        some (USBDevice.mk
          (USBBus.mk "B Bus" [("Bus Number", "0x01")]
            [USBDevice.mk "B Bus" [("Bus Number", "0x01")]]).name
          (USBBus.mk "B Bus" [("Bus Number", "0x01")]
            [USBDevice.mk "B Bus" [("Bus Number", "0x01")]]).attr) :=
  c9_first_child_synthetic ["USB:", "B Bus:", "Bus Number: 0x01"]
    (USB.mk [] [USBBus.mk "B Bus" [("Bus Number", "0x01")]
      [USBDevice.mk "B Bus" [("Bus Number", "0x01")]]]) [] (by rfl)
    (USBBus.mk "B Bus" [("Bus Number", "0x01")]
      [USBDevice.mk "B Bus" [("Bus Number", "0x01")]])
    (List.mem_cons_self _ _)

/-- C10: whenever parse returns, the queue is fully consumed; and for every
finite report whose first line is exactly "USB:" and whose every line
(stripped) contains a colon, parse terminates successfully with the empty
queue, even though parse_dev and parse_bus each push back at most one
boundary line (the iteration bound, the queue length, is always sufficient,
because every loop iteration consumes at least one line net). -/
theorem c10_parse_terminates_consumes :
    (∀ (text : List String) (u : USB) (r : List String),
        parse text = some (u, r) → r = [])
    ∧ ∀ (rest : List String), (∀ x ∈ rest, ':' ∈ x.data) →
        ∃ u, parse ("USB:" :: rest) = some (u, []) := by
  constructor
  · intro text u r h
    cases text with
    | nil => exact Option.noConfusion h
    | cons l rest =>
      simp only [parse] at h
      by_cases hl : l = "USB:"
      · rw [if_pos hl] at h
        exact parseLoopF_rest_nil rest.length (USB.mk [] []) rest u r h
      · rw [if_neg hl] at h
        exact Option.noConfusion h
  · intro rest hcol
    obtain ⟨u, hu⟩ := parseLoopF_some rest.length rest (USB.mk [] []) (Nat.le_refl _) hcol
    refine ⟨u, ?_⟩
    rw [parse_cons_anchor]
    exact hu

/-- C10 (witness): both parts applied to concrete reports. -/
theorem c10_parse_terminates_consumes_witness :
    ([] : List String) = []
    ∧ ∃ u, parse ["USB:", "B Bus:", "k: v"] = some (u, []) :=
  ⟨c10_parse_terminates_consumes.1 ["USB:"] (USB.mk [] []) [] (by rfl),
   c10_parse_terminates_consumes.2 ["B Bus:", "k: v"] (by decide)⟩
